import Mathlib

/-
Verification of the plane-wave wavefunction engine of abipy
(abipy/waves/pwwave.py): data model, shape checking, lazy real-space
cache, norm/braket dispatch and the symmetry-rotation algorithm.

External collaborators (abipy.core GSphere rotation, Mesh3D FFT, scatter,
integration) are consumed through explicit function arguments, mirroring
the delegation in the source; everything the source computes itself is
translated directly.  Python floats are modelled by exact rationals (for
the data the source manipulates: fractional coordinates, tolerances) and
by real/complex numbers for the coefficient arithmetic.
-/

/-- Error kinds of the engine, using the specification's abstract error
vocabulary.  In the Python source these surface as: AssertionError from the
shape asserts (shapeMismatch), ValueError from an unrecognized space
selector (invalidMode), ValueError from the spinor-rotation guard
(notImplemented), and TypeError from an attribute assignment on a builtin
type (typeError). -/
inductive Err where
  | shapeMismatch
  | invalidMode
  | notImplemented
  | typeError
  deriving DecidableEq, Repr

/-- Integer reciprocal-lattice vector in reduced coordinates. -/
abbrev GVec := ℤ × ℤ × ℤ

/-- Three-component fractional-coordinate vector. -/
abbrev Vec3 := ℚ × ℚ × ℚ

/-- Absolute tolerance of numpy allclose / isclose. -/
def atol : ℚ := 1 / 100000000

/-- Relative tolerance of numpy allclose / isclose. -/
def rtol : ℚ := 1 / 100000

/-- Dot product of two fractional 3-vectors. -/
def dotQ (a b : Vec3) : ℚ := a.1 * b.1 + a.2.1 * b.2.1 + a.2.2 * b.2.2

/-- Cast an integer G-vector to fractional coordinates. -/
def gvecToQ (g : GVec) : Vec3 := ((g.1 : ℚ), (g.2.1 : ℚ), (g.2.2 : ℚ))

/-- Componentwise sum of two fractional 3-vectors. -/
def addV (a b : Vec3) : Vec3 := (a.1 + b.1, a.2.1 + b.2.1, a.2.2 + b.2.2)

/-- numpy allclose of a fractional 3-vector against np.zeros(3): each
component satisfies abs t ≤ atol + rtol * 0. -/
def allcloseZero (t : Vec3) : Bool :=
  decide (|t.1| ≤ atol) && decide (|t.2.1| ≤ atol) && decide (|t.2.2| ≤ atol)

/-- External G-sphere collaborator (abipy.core), consumed read-only: the
ordered integer G-vectors, the k-point fractional coordinates and the
energy cutoff.  Its own rotation is delegated work, so the rotated sphere
enters `rotate` as an argument. -/
structure GSphere where
  gvecs : List GVec
  kpoint : Vec3
  ecut : ℚ
  deriving DecidableEq

/-- Number of plane waves, len(gsphere). -/
def GSphere.npw (gs : GSphere) : ℕ := gs.gvecs.length

/-- External symmetry operation: the wavefunction code reads only the
fractional translation tau and the ferromagnetic flag (the rotation matrix
acts through the G-sphere's own rotate). -/
structure SymmOp where
  tau : Vec3
  is_fm : Bool
  deriving DecidableEq

/-- Plane-wave wavefunction: spinor count, spin channel, band index, the
shared G-sphere, the coefficient array u(nspinor, G) as a rectangular list
of rows, and the lazily cached real-space array _ur (none when it has not
been computed). -/
structure PWWaveFunction where
  nspinor : ℕ
  spin : ℕ
  band : ℕ
  gsphere : GSphere
  ug : List (List ℂ)
  urCache : Option (List (List ℂ))

/-- Number of G-vectors of the wavefunction's sphere. -/
def PWWaveFunction.npw (w : PWWaveFunction) : ℕ := w.gsphere.npw

/-- Shape of ug, i.e. (nspinor, npw). -/
def PWWaveFunction.shape (w : PWWaveFunction) : ℕ × ℕ := (w.nspinor, w.npw)

/-- Shape predicate for a rectangular 2-d coefficient array, the content of
the numpy checks ug.ndim == 2, ug.shape[0] == nspinor, ug.shape[1] == npw
(a numpy 2-d array is rectangular, so shape[1] is the common row length). -/
def hasShape (a : List (List ℂ)) (nspinor npw : ℕ) : Prop :=
  a.length = nspinor ∧ ∀ row ∈ a, row.length = npw

instance (a : List (List ℂ)) (n m : ℕ) : Decidable (hasShape a n m) := by
  unfold hasShape; exact inferInstance

/-- PWWaveFunction.__init__: store the indices, run the sanity asserts on
the shape of ug, then store the G-sphere and the coefficient array.  A
failed assert is the ShapeMismatch failure; on success _ur has not been
computed yet. -/
def PWWaveFunction.make (nspinor spin band : ℕ) (gsphere : GSphere)
    (ug : List (List ℂ)) : Except Err PWWaveFunction :=
  if hasShape ug nspinor gsphere.npw then
    .ok ⟨nspinor, spin, band, gsphere, ug, none⟩
  else
    .error .shapeMismatch

/-- WaveFunction.set_ug: first the assert comparing the new array's shape
with self.shape, then the line `set._ug = ug` — an assignment to the
builtin `set` type (a slip for `self._ug`) that raises TypeError, so the
coefficient array is never replaced and delete_ur is never reached.  The
result is the object state after the call paired with the raised error,
if any. -/
def PWWaveFunction.set_ug (w : PWWaveFunction) (ug : List (List ℂ)) :
    PWWaveFunction × Option Err :=
  if hasShape ug w.nspinor w.npw then
    (w, some .typeError)
  else
    (w, some .shapeMismatch)

/-- WaveFunction.delete_ur: drop the cached _ur if it has been computed. -/
def PWWaveFunction.delete_ur (w : PWWaveFunction) : PWWaveFunction :=
  ⟨w.nspinor, w.spin, w.band, w.gsphere, w.ug, none⟩

/-- WaveFunction.ur: return the cached _ur, computing it through the mesh
FFT of the scattered coefficients (work of the external Mesh3D and GSphere
collaborators, supplied as the function fft) on a cache miss and memoizing
the result.  Returns the value together with the object state after the
access. -/
def PWWaveFunction.ur (fft : PWWaveFunction → List (List ℂ))
    (w : PWWaveFunction) : List (List ℂ) × PWWaveFunction :=
  match w.urCache with
  | some u => (u, w)
  | none =>
      (fft w, ⟨w.nspinor, w.spin, w.band, w.gsphere, w.ug, some (fft w)⟩)

/-- numpy vdot on two flattened complex vectors: the sum of conj x * y. -/
def vdotC (a b : List ℂ) : ℂ :=
  (List.zipWith (fun x y => (starRingEnd ℂ) x * y) a b).sum

/-- numpy vdot on 2-d arrays (numpy flattens both operands). -/
def vdot2 (a b : List (List ℂ)) : ℂ := vdotC a.flatten b.flatten

/-- Sum over all spinor components and G-vectors of the squared magnitudes
of the entries of a 2-d complex array. -/
def sumSq (a : List (List ℂ)) : ℝ :=
  (a.map (fun row => (row.map Complex.normSq).sum)).sum

/-- Python str.lower() on the ASCII mode selectors: lowercase every
character. -/
def strLower (s : String) : String := ⟨s.data.map Char.toLower⟩

/-- PWWaveFunction.norm2: squared norm of the wavefunction.  The selector
is lowercased; "g" returns Re(vdot(ug, ug)); "r" integrates ur2 on the
mesh (external work, supplied as the function integrateUr2 standing for
np.real(self.mesh.integrate(self.ur2))); any other selector raises
ValueError, the InvalidMode failure. -/
def PWWaveFunction.norm2 (integrateUr2 : PWWaveFunction → ℝ)
    (w : PWWaveFunction) (space : String) : Except Err ℝ :=
  let s := strLower space
  if s = "g" then .ok (vdot2 w.ug w.ug).re
  else if s = "r" then .ok (integrateUr2 w)
  else .error .invalidMode

/-- PWWaveFunction.braket: scalar product of the periodic parts of two
wavefunctions.  The selector is lowercased; "g" scatters both coefficient
arrays onto self's FFT mesh (external gsphere.tofftmesh, supplied as a
function closed over self.mesh) and takes vdot there; "gsphere" is vdot of
the two raw coefficient arrays; "r" is vdot of the two real-space arrays
times the mesh cell volume dv (both supplied externally); any other
selector raises ValueError, the InvalidMode failure. -/
def PWWaveFunction.braket (tofftmesh : GSphere → List (List ℂ) → List ℂ)
    (urOf : PWWaveFunction → List ℂ) (dv : ℝ)
    (w other : PWWaveFunction) (space : String) : Except Err ℂ :=
  let s := strLower space
  if s = "g" then
    .ok (vdotC (tofftmesh w.gsphere w.ug) (tofftmesh other.gsphere other.ug))
  else if s = "gsphere" then .ok (vdot2 w.ug other.ug)
  else if s = "r" then .ok (vdotC (urOf w) (urOf other) * dv)
  else .error .invalidMode

/-- numpy allclose on two equally shaped 2-d complex arrays, flattened:
entrywise abs (x - y) ≤ atol + rtol * abs y. -/
def allcloseC (a b : List (List ℂ)) : Prop :=
  a.flatten.length = b.flatten.length ∧
    ∀ p ∈ a.flatten.zip b.flatten,
      Complex.abs (p.1 - p.2) ≤ (atol : ℝ) + (rtol : ℝ) * Complex.abs p.2

/-- WaveFunction.__eq__: the G-spheres are equal as values and the
coefficient arrays are numerically close. -/
def PWWaveFunction.eqv (w other : PWWaveFunction) : Prop :=
  w.gsphere = other.gsphere ∧ allcloseC w.ug other.ug

/-- Per-G-vector Bloch phase factor exp(-2 pi i (g + k) . tau) of the
rotation loop. -/
noncomputable def phaseFactor (g : GVec) (kpt tau : Vec3) : ℂ :=
  Complex.exp (-2 * Complex.I * (Real.pi : ℂ) *
    ((dotQ (addV (gvecToQ g) kpt) tau : ℝ) : ℂ))

/-- One row of the rotation loop `rot_ug[:, ig] = ug[:, ig] * exp(...)`:
entry ig of the row is multiplied by the phase factor of rot_gvecs[ig]
(the first numeric argument carries the running index ig; the getD default
is never consulted at the in-range indices that the constructor assert at
the end of rotate admits). -/
noncomputable def rotRowAux (gvecs : List GVec) (kpt tau : Vec3) :
    ℕ → List ℂ → List ℂ
  | _, [] => []
  | i, c :: cs =>
      c * phaseFactor (gvecs.getD i (0, 0, 0)) kpt tau ::
        rotRowAux gvecs kpt tau (i + 1) cs

/-- PWWaveFunction.rotate: reject multi-spinor wavefunctions, delegate the
sphere rotation (the rotated sphere rot_gsphere enters as an argument),
then either copy the coefficients (translation allclose to zero) or apply
the per-G-vector phase factors, flip the collinear spin on an
anti-ferromagnetic operation, and build the new wavefunction through the
checked constructor. -/
noncomputable def PWWaveFunction.rotate (rot_gsphere : GSphere)
    (symmop : SymmOp) (w : PWWaveFunction) : Except Err PWWaveFunction :=
  if w.nspinor ≠ 1 then .error .notImplemented
  else
    let rot_ug :=
      if allcloseZero symmop.tau then w.ug
      else w.ug.map (rotRowAux rot_gsphere.gvecs rot_gsphere.kpoint symmop.tau 0)
    let rot_spin :=
      if w.nspinor = 1 then
        (if symmop.is_fm then w.spin else (w.spin + 1) % 2)
      else w.spin
    PWWaveFunction.make w.nspinor rot_spin w.band rot_gsphere rot_ug

lemma rotRowAux_length (gv : List GVec) (k t : Vec3) (i : ℕ) (l : List ℂ) :
    (rotRowAux gv k t i l).length = l.length := by
  induction l generalizing i with
  | nil => simp [rotRowAux]
  | cons c cs ih => simp [rotRowAux, ih]

lemma rotRowAux_getD (gv : List GVec) (k t : Vec3) (l : List ℂ)
    (i j : ℕ) :
    (rotRowAux gv k t i l).getD j 0 =
      l.getD j 0 * phaseFactor (gv.getD (i + j) (0, 0, 0)) k t := by
  induction l generalizing i j with
  | nil => simp [rotRowAux]
  | cons c cs ih =>
      cases j with
      | zero => simp [rotRowAux]
      | succ j' =>
          simp only [rotRowAux, List.getD_cons_succ]
          rw [ih (i + 1) j']
          congr 3
          omega

lemma phaseFactor_normSq (g : GVec) (k t : Vec3) :
    Complex.normSq (phaseFactor g k t) = 1 := by
  have h : (-2 : ℂ) * Complex.I * (Real.pi : ℂ) *
        ((dotQ (addV (gvecToQ g) k) t : ℝ) : ℂ)
      = (((-2 * Real.pi * (dotQ (addV (gvecToQ g) k) t : ℝ)) : ℝ) : ℂ) *
        Complex.I := by
    push_cast
    ring
  rw [phaseFactor, h, Complex.normSq_eq_abs, Complex.abs_exp_ofReal_mul_I]
  norm_num

lemma rotRowAux_sumSq (gv : List GVec) (k t : Vec3) (i : ℕ) (l : List ℂ) :
    ((rotRowAux gv k t i l).map Complex.normSq).sum =
      (l.map Complex.normSq).sum := by
  induction l generalizing i with
  | nil => simp [rotRowAux]
  | cons c cs ih =>
      simp [rotRowAux, Complex.normSq_mul, phaseFactor_normSq, ih]

lemma vdotC_self (l : List ℂ) :
    vdotC l l = (((l.map Complex.normSq).sum : ℝ) : ℂ) := by
  induction l with
  | nil => simp [vdotC]
  | cons c cs ih =>
      have hc : (starRingEnd ℂ) c * c = (Complex.normSq c : ℂ) := by
        rw [mul_comm, Complex.mul_conj]
      simp only [vdotC, List.zipWith_cons_cons, List.sum_cons, List.map_cons]
      rw [hc]
      rw [vdotC] at ih
      rw [ih]
      push_cast
      ring

lemma vdot2_self (a : List (List ℂ)) :
    vdot2 a a = ((sumSq a : ℝ) : ℂ) := by
  have hflat : (a.flatten.map Complex.normSq).sum = sumSq a := by
    induction a with
    | nil => simp [sumSq]
    | cons r rs ih => simp_all [sumSq, List.map_append, List.sum_append]
  rw [vdot2, vdotC_self, hflat]

lemma sumSq_nonneg (a : List (List ℂ)) : 0 ≤ sumSq a := by
  apply List.sum_nonneg
  intro x hx
  simp only [List.mem_map] at hx
  obtain ⟨row, _, hrow⟩ := hx
  subst hrow
  apply List.sum_nonneg
  intro y hy
  simp only [List.mem_map] at hy
  obtain ⟨c, _, hc⟩ := hy
  subst hc
  exact Complex.normSq_nonneg c

lemma sumSq_map_rot (gv : List GVec) (k t : Vec3) (a : List (List ℂ)) :
    sumSq (a.map (rotRowAux gv k t 0)) = sumSq a := by
  induction a with
  | nil => rfl
  | cons r rs ih => simp [sumSq, rotRowAux_sumSq] at ih ⊢; exact ih

lemma zip_self_eq {α : Type} (l : List α) : ∀ p ∈ l.zip l, p.1 = p.2 := by
  induction l with
  | nil => simp
  | cons x xs ih =>
      intro p hp
      rw [List.zip_cons_cons] at hp
      rcases List.mem_cons.mp hp with hrfl | hp
      · subst hrfl; rfl
      · exact ih _ hp

lemma allcloseC_refl (a : List (List ℂ)) : allcloseC a a := by
  refine ⟨rfl, ?_⟩
  intro p hp
  rw [zip_self_eq _ p hp]
  have h1 : (0 : ℝ) ≤ (atol : ℝ) := by norm_num [atol]
  have h2 : (0 : ℝ) ≤ (rtol : ℝ) * Complex.abs p.2 := by
    apply mul_nonneg _ (Complex.abs.nonneg _)
    norm_num [rtol]
  simpa using add_nonneg h1 h2

lemma rot_ug_shape (w : PWWaveFunction) (rg : GSphere) (s : SymmOp)
    (hwf : hasShape w.ug w.nspinor w.npw) (hlen : rg.npw = w.npw) :
    hasShape
      (if allcloseZero s.tau then w.ug
       else w.ug.map (rotRowAux rg.gvecs rg.kpoint s.tau 0))
      w.nspinor rg.npw := by
  by_cases hz : allcloseZero s.tau
  · rw [if_pos hz, hlen]; exact hwf
  · rw [if_neg hz]
    refine ⟨by simpa using hwf.1, ?_⟩
    intro row hrow
    simp only [List.mem_map] at hrow
    obtain ⟨r, hr, hmap⟩ := hrow
    subst hmap
    rw [rotRowAux_length, hwf.2 r hr, hlen]

lemma rotate_ok (w : PWWaveFunction) (rg : GSphere) (s : SymmOp)
    (hwf : hasShape w.ug w.nspinor w.npw) (h1 : w.nspinor = 1)
    (hlen : rg.npw = w.npw) :
    w.rotate rg s = .ok
      ⟨w.nspinor,
       (if s.is_fm then w.spin else (w.spin + 1) % 2),
       w.band, rg,
       (if allcloseZero s.tau then w.ug
        else w.ug.map (rotRowAux rg.gvecs rg.kpoint s.tau 0)),
       none⟩ := by
  rw [PWWaveFunction.rotate, if_neg (by simp [h1]), PWWaveFunction.make,
    if_pos (rot_ug_shape w rg s hwf hlen), if_pos h1]

lemma getD_map_pres {f : List ℂ → List ℂ} (hf : f [] = [])
    (l : List (List ℂ)) (i : ℕ) :
    (l.map f).getD i [] = f (l.getD i []) := by
  induction l generalizing i with
  | nil => simp [hf]
  | cons x xs ih =>
      cases i with
      | zero => rfl
      | succ i' => simpa using ih i'

def gs1 : GSphere := ⟨[(0, 0, 0), (1, 0, 0), (0, 1, 0), (0, 0, 1)], (0, 0, 0), 3⟩

def ug1 : List (List ℂ) := [[1, 0, 0, 0]]

def w1 : PWWaveFunction := ⟨1, 0, 0, gs1, ug1, none⟩

def ug3 : List (List ℂ) := [[1, 1, 0, 0]]

def w3 : PWWaveFunction := ⟨1, 0, 0, gs1, ug3, none⟩


def ug2 : List (List ℂ) := [[0, 1, 0, 0]]

def w1c : PWWaveFunction := ⟨1, 0, 0, gs1, ug1, some ug1⟩

def w2 : PWWaveFunction := ⟨2, 0, 0, gs1, [[1, 0, 0, 0], [0, 1, 0, 0]], none⟩

def s_id : SymmOp := ⟨(0, 0, 0), true⟩

def s_afm : SymmOp := ⟨(0, 0, 0), false⟩

def s_half : SymmOp := ⟨(1 / 2, 0, 0), true⟩

def s_tiny : SymmOp := ⟨(1 / 1000000000, 0, 0), true⟩

/-- C1: the claim says replacing the coefficients with a correctly shaped
array succeeds, installs the new array and discards the real-space cache.
The code does not: after the shape assert passes, the line `set._ug = ug`
assigns to the builtin `set` type (a slip for `self._ug`) and raises
TypeError, so on a wavefunction with a warm cache the call fails and the
state keeps both the old coefficients and the old cache. -/
theorem C1_set_ug_typeerror :
    hasShape ug2 w1c.nspinor w1c.npw ∧
    w1c.set_ug ug2 = (w1c, some Err.typeError) ∧
    (w1c.set_ug ug2).1.ug = ug1 ∧ (w1c.set_ug ug2).1.urCache = some ug1 := by
  have hs : hasShape ug2 w1c.nspinor w1c.npw := by decide
  have heq : w1c.set_ug ug2 = (w1c, some Err.typeError) := by
    rw [PWWaveFunction.set_ug, if_pos hs]
  exact ⟨hs, heq, by rw [heq]; rfl, by rw [heq]; rfl⟩

/-- C7: a coefficient array whose dimensions differ from
(spinor-count, G-sphere length) fails with the ShapeMismatch error both in
the constructor and in set_ug, and the failed replacement returns the
object state unchanged, coefficients and cache intact. -/
theorem C7_shape_mismatch (nspinor spin band : ℕ) (gs : GSphere)
    (a : List (List ℂ)) (w : PWWaveFunction)
    (hc : ¬ hasShape a nspinor gs.npw)
    (hr : ¬ hasShape a w.nspinor w.npw) :
    PWWaveFunction.make nspinor spin band gs a = .error Err.shapeMismatch ∧
    w.set_ug a = (w, some Err.shapeMismatch) := by
  constructor
  · rw [PWWaveFunction.make, if_neg hc]
  · rw [PWWaveFunction.set_ug, if_neg hr]

/-- Witness for C7 at a concrete 1 x 1 array against a 4-vector sphere. -/
theorem C7_shape_mismatch_witness :
    (¬ hasShape [[1]] 1 gs1.npw) ∧ (¬ hasShape [[1]] w1c.nspinor w1c.npw) ∧
    PWWaveFunction.make 1 0 0 gs1 [[1]] = .error Err.shapeMismatch ∧
    w1c.set_ug [[1]] = (w1c, some Err.shapeMismatch) :=
  ⟨by decide, by decide,
   (C7_shape_mismatch 1 0 0 gs1 [[1]] w1c (by decide) (by decide)).1,
   (C7_shape_mismatch 1 0 0 gs1 [[1]] w1c (by decide) (by decide)).2⟩

/-- C8: rotating a wavefunction whose spinor count differs from 1 fails
with the NotImplemented error before any rotation work, whatever the
symmetry operation and rotated sphere. -/
theorem C8_spinor_rotate_fails (w : PWWaveFunction) (h : w.nspinor ≠ 1)
    (rg : GSphere) (s : SymmOp) :
    w.rotate rg s = .error Err.notImplemented := by
  rw [PWWaveFunction.rotate, if_pos h]

/-- Witness for C8 on a two-spinor wavefunction. -/
theorem C8_spinor_rotate_fails_witness :
    w2.nspinor ≠ 1 ∧ w2.rotate gs1 s_id = .error Err.notImplemented :=
  ⟨by decide, C8_spinor_rotate_fails w2 (by decide) gs1 s_id⟩

/-- C9 counterexample: the selector "G" is not one of the recognized
selectors "g", "gsphere", "r" of braket (nor "g", "r" of norm2), yet norm2
succeeds on it instead of failing with InvalidMode, because the code
lowercases the selector before dispatching.  So the claim as stated is
false. -/
theorem C9_invalid_mode_cex :
    (("G" : String) ≠ "g" ∧ ("G" : String) ≠ "gsphere" ∧
     ("G" : String) ≠ "r") ∧
    w1.norm2 (fun _ => 0) "G" = .ok 1 := by
  refine ⟨by decide, ?_⟩
  have hG : strLower "G" = "g" := by decide
  have hsum : sumSq w1.ug = 1 := by simp [w1, sumSq, ug1]
  simp [PWWaveFunction.norm2, hG, vdot2_self, hsum]

/-- C9 amended: a selector whose lowercase form is outside the recognized
set fails with the InvalidMode error: braket for lowercase outside
"g", "gsphere", "r", and norm2 for lowercase outside "g", "r". -/
theorem C9_invalid_mode (m : String) (w other : PWWaveFunction)
    (integrateUr2 : PWWaveFunction → ℝ)
    (tofftmesh : GSphere → List (List ℂ) → List ℂ)
    (urOf : PWWaveFunction → List ℂ) (dv : ℝ) :
    (strLower m ≠ "g" → strLower m ≠ "gsphere" → strLower m ≠ "r" →
      w.braket tofftmesh urOf dv other m = .error Err.invalidMode) ∧
    (strLower m ≠ "g" → strLower m ≠ "r" →
      w.norm2 integrateUr2 m = .error Err.invalidMode) := by
  constructor
  · intro hg hgs hr
    simp only [PWWaveFunction.braket]
    rw [if_neg hg, if_neg hgs, if_neg hr]
  · intro hg hr
    simp only [PWWaveFunction.norm2]
    rw [if_neg hg, if_neg hr]

/-- Witness for C9 amended at the unrecognized selector "xyz". -/
theorem C9_invalid_mode_witness :
    w1.braket (fun _ _ => []) (fun _ => []) 0 w1 "xyz" =
      .error Err.invalidMode ∧
    w1.norm2 (fun _ => 0) "xyz" = .error Err.invalidMode :=
  ⟨(C9_invalid_mode "xyz" w1 w1 (fun _ => 0) (fun _ _ => []) (fun _ => [])
      0).1 (by decide) (by decide) (by decide),
   (C9_invalid_mode "xyz" w1 w1 (fun _ => 0) (fun _ _ => []) (fun _ => [])
      0).2 (by decide) (by decide)⟩

/-- C10: the space-mode selector of norm2 and braket is matched
case-insensitively: the selector is lowercased before dispatch, so
norm2 "G" equals norm2 "g" and braket "GSPHERE" equals braket "gsphere",
and every selector whose lowercase form is in the recognized set returns a
value rather than an error. -/
theorem C10_case_insensitive (w other : PWWaveFunction)
    (integrateUr2 : PWWaveFunction → ℝ)
    (tofftmesh : GSphere → List (List ℂ) → List ℂ)
    (urOf : PWWaveFunction → List ℂ) (dv : ℝ) :
    w.norm2 integrateUr2 "G" = w.norm2 integrateUr2 "g" ∧
    w.braket tofftmesh urOf dv other "GSPHERE" =
      w.braket tofftmesh urOf dv other "gsphere" ∧
    (∀ m : String, strLower m = "g" ∨ strLower m = "r" →
      ∃ v, w.norm2 integrateUr2 m = .ok v) ∧
    (∀ m : String,
      strLower m = "g" ∨ strLower m = "gsphere" ∨ strLower m = "r" →
      ∃ v, w.braket tofftmesh urOf dv other m = .ok v) := by
  refine ⟨?_, ?_, ?_, ?_⟩
  · simp only [PWWaveFunction.norm2]
    rw [show strLower "G" = "g" from by decide,
      show strLower "g" = "g" from by decide]
  · simp only [PWWaveFunction.braket]
    rw [show strLower "GSPHERE" = "gsphere" from by decide,
      show strLower "gsphere" = "gsphere" from by decide]
  · intro m hm
    rcases hm with hm | hm
    · exact ⟨(vdot2 w.ug w.ug).re, by simp [PWWaveFunction.norm2, hm]⟩
    · exact ⟨integrateUr2 w, by simp [PWWaveFunction.norm2, hm]⟩
  · intro m hm
    rcases hm with hm | hm | hm
    · exact ⟨vdotC (tofftmesh w.gsphere w.ug) (tofftmesh other.gsphere other.ug),
        by simp [PWWaveFunction.braket, hm]⟩
    · exact ⟨vdot2 w.ug other.ug, by simp [PWWaveFunction.braket, hm]⟩
    · exact ⟨vdotC (urOf w) (urOf other) * dv,
        by simp [PWWaveFunction.braket, hm]⟩

/-- Witness for C10 at concrete uppercase selectors. -/
theorem C10_case_insensitive_witness :
    w1.norm2 (fun _ => 0) "G" = w1.norm2 (fun _ => 0) "g" ∧
    (∃ v, w1.norm2 (fun _ => 0) "R" = .ok v) ∧
    (∃ v, w1.braket (fun _ _ => []) (fun _ => []) 0 w1 "GSPHERE" = .ok v) :=
  ⟨(C10_case_insensitive w1 w1 (fun _ => 0) (fun _ _ => []) (fun _ => [])
      0).1,
   (C10_case_insensitive w1 w1 (fun _ => 0) (fun _ _ => []) (fun _ => [])
      0).2.2.1 "R" (by decide),
   (C10_case_insensitive w1 w1 (fun _ => 0) (fun _ _ => []) (fun _ => [])
      0).2.2.2 "GSPHERE" (by decide)⟩

/-- C5: for a wavefunction with correctly shaped coefficients, norm2 "g"
returns the sum over all spinor components and G-vectors of the squared
magnitudes of the raw coefficients; the same value, as a complex number,
is braket self self "gsphere", and it is real (an ofReal) and
non-negative. -/
theorem C5_norm2_g (w : PWWaveFunction)
    (hwf : hasShape w.ug w.nspinor w.npw)
    (integrateUr2 : PWWaveFunction → ℝ)
    (tofftmesh : GSphere → List (List ℂ) → List ℂ)
    (urOf : PWWaveFunction → List ℂ) (dv : ℝ) :
    w.norm2 integrateUr2 "g" = .ok (sumSq w.ug) ∧
    w.braket tofftmesh urOf dv w "gsphere" = .ok ((sumSq w.ug : ℝ) : ℂ) ∧
    0 ≤ sumSq w.ug := by
  refine ⟨?_, ?_, sumSq_nonneg w.ug⟩
  · have h : strLower "g" = "g" := by decide
    simp [PWWaveFunction.norm2, h, vdot2_self]
  · have h : strLower "gsphere" = "gsphere" := by decide
    simp [PWWaveFunction.braket, h, vdot2_self]

/-- Witness for C5 on the concrete 4-G-vector wavefunction. -/
theorem C5_norm2_g_witness :
    hasShape w1.ug w1.nspinor w1.npw ∧
    (w1.norm2 (fun _ => 0) "g" = .ok (sumSq w1.ug) ∧
     w1.braket (fun _ _ => []) (fun _ => []) 0 w1 "gsphere" =
       .ok ((sumSq w1.ug : ℝ) : ℂ) ∧
     0 ≤ sumSq w1.ug) :=
  ⟨by decide,
   C5_norm2_g w1 (by decide) (fun _ => 0) (fun _ _ => []) (fun _ => []) 0⟩

/-- C3: rotating a single-spinor wavefunction by an operation whose
fractional translation is exactly zero copies the coefficient array
directly, and when the rotated sphere equals the original (the identity
rotation) the result is equal to the original wavefunction in the sense of
the engine's value equality (equal G-spheres, numerically close
coefficients). -/
theorem C3_zero_tau_copy (w : PWWaveFunction) (rg : GSphere) (s : SymmOp)
    (hwf : hasShape w.ug w.nspinor w.npw) (h1 : w.nspinor = 1)
    (htau : s.tau = (0, 0, 0)) (hlen : rg.npw = w.npw) :
    ∃ w', w.rotate rg s = .ok w' ∧ w'.ug = w.ug ∧
      (rg = w.gsphere → s.is_fm = true → w'.eqv w) := by
  have hz : allcloseZero s.tau = true := by
    rw [htau]; norm_num [allcloseZero, atol, abs_le]
  refine ⟨_, rotate_ok w rg s hwf h1 hlen, ?_, ?_⟩
  · simp [hz]
  · intro hrg _
    refine ⟨hrg, ?_⟩
    simpa [PWWaveFunction.eqv, hz] using allcloseC_refl w.ug

/-- Witness for C3 at the identity operation on the concrete
4-G-vector wavefunction. -/
theorem C3_zero_tau_copy_witness :
    hasShape w1.ug w1.nspinor w1.npw ∧ w1.nspinor = 1 ∧
    s_id.tau = (0, 0, 0) ∧ gs1.npw = w1.npw ∧
    ∃ w', w1.rotate gs1 s_id = .ok w' ∧ w'.ug = w1.ug ∧
      (gs1 = w1.gsphere → s_id.is_fm = true → w'.eqv w1) :=
  ⟨by decide, rfl, rfl, rfl, C3_zero_tau_copy w1 gs1 s_id (by decide) rfl rfl rfl⟩

/-- C4: rotating a single-spinor wavefunction by an operation with
non-zero fractional translation preserves the self inner product of the
raw coefficient array, the braket of the result with itself in
"gsphere" space (every phase factor has unit modulus). -/
theorem C4_rotate_norm (w : PWWaveFunction) (rg : GSphere) (s : SymmOp)
    (hwf : hasShape w.ug w.nspinor w.npw) (h1 : w.nspinor = 1)
    (htau : s.tau ≠ (0, 0, 0)) (hlen : rg.npw = w.npw)
    (tofftmesh : GSphere → List (List ℂ) → List ℂ)
    (urOf : PWWaveFunction → List ℂ) (dv : ℝ) :
    ∃ w', w.rotate rg s = .ok w' ∧
      vdot2 w'.ug w'.ug = vdot2 w.ug w.ug ∧
      w'.braket tofftmesh urOf dv w' "gsphere" =
        w.braket tofftmesh urOf dv w "gsphere" := by
  have hv : vdot2
      (if allcloseZero s.tau then w.ug
       else w.ug.map (rotRowAux rg.gvecs rg.kpoint s.tau 0))
      (if allcloseZero s.tau then w.ug
       else w.ug.map (rotRowAux rg.gvecs rg.kpoint s.tau 0)) =
      vdot2 w.ug w.ug := by
    by_cases hz : allcloseZero s.tau
    · rw [if_pos hz]
    · rw [if_neg hz, vdot2_self, vdot2_self, sumSq_map_rot]
  refine ⟨_, rotate_ok w rg s hwf h1 hlen, hv, ?_⟩
  have h : strLower "gsphere" = "gsphere" := by decide
  simp [PWWaveFunction.braket, h, hv]

/-- Witness for C4 at the half-lattice translation on the concrete
4-G-vector wavefunction. -/
theorem C4_rotate_norm_witness :
    hasShape w1.ug w1.nspinor w1.npw ∧ w1.nspinor = 1 ∧
    s_half.tau ≠ (0, 0, 0) ∧
    ∃ w', w1.rotate gs1 s_half = .ok w' ∧
      vdot2 w'.ug w'.ug = vdot2 w1.ug w1.ug ∧
      w'.braket (fun _ _ => []) (fun _ => []) 0 w' "gsphere" =
        w1.braket (fun _ _ => []) (fun _ => []) 0 w1 "gsphere" :=
  ⟨by decide, rfl, by norm_num [s_half, Prod.ext_iff],
   C4_rotate_norm w1 gs1 s_half (by decide) rfl
     (by norm_num [s_half, Prod.ext_iff]) rfl (fun _ _ => []) (fun _ => []) 0⟩

/-- C6: rotating a single-spinor wavefunction flips the spin channel
through (spin + 1) mod 2 on an anti-ferromagnetic operation and keeps it
on a ferromagnetic one, and applying the same anti-ferromagnetic operation
twice returns the spin channel to its original value. -/
theorem C6_afm_spin_flip (w : PWWaveFunction) (rg : GSphere) (s : SymmOp)
    (hwf : hasShape w.ug w.nspinor w.npw) (h1 : w.nspinor = 1)
    (hlen : rg.npw = w.npw) :
    ∃ w', w.rotate rg s = .ok w' ∧
      w'.spin = (if s.is_fm then w.spin else (w.spin + 1) % 2) ∧
      (∀ rg2 : GSphere, rg2.npw = rg.npw → s.is_fm = false → w.spin < 2 →
        ∃ w'', w'.rotate rg2 s = .ok w'' ∧ w''.spin = w.spin) := by
  refine ⟨_, rotate_ok w rg s hwf h1 hlen, rfl, ?_⟩
  intro rg2 hlen2 hfm hs2
  refine ⟨_, rotate_ok _ rg2 s (rot_ug_shape w rg s hwf hlen) h1 hlen2, ?_⟩
  simp only [hfm, Bool.false_eq_true, if_false]
  omega

/-- Witness for C6 on the concrete wavefunction with spin 0 and an
anti-ferromagnetic zero-translation operation. -/
theorem C6_afm_spin_flip_witness :
    hasShape w1.ug w1.nspinor w1.npw ∧ w1.nspinor = 1 ∧ w1.spin < 2 ∧
    s_afm.is_fm = false ∧
    ∃ w', w1.rotate gs1 s_afm = .ok w' ∧
      w'.spin = (if s_afm.is_fm then w1.spin else (w1.spin + 1) % 2) ∧
      (∀ rg2 : GSphere, rg2.npw = gs1.npw → s_afm.is_fm = false →
        w1.spin < 2 →
        ∃ w'', w'.rotate rg2 s_afm = .ok w'' ∧ w''.spin = w1.spin) :=
  ⟨by decide, rfl, by decide, rfl, C6_afm_spin_flip w1 gs1 s_afm (by decide) rfl rfl⟩

lemma exp_small_ne_one (x : ℝ) (hx : 0 < x) (hx1 : x < 1) :
    Complex.exp (-2 * Complex.I * (Real.pi : ℂ) * (x : ℂ)) ≠ 1 := by
  intro h
  rw [Complex.exp_eq_one_iff] at h
  obtain ⟨n, hn⟩ := h
  have him := congrArg Complex.im hn
  simp [Complex.mul_im, Complex.mul_re, Complex.I_re, Complex.I_im,
    Complex.ofReal_re, Complex.ofReal_im] at him
  have h2pi : (2 * Real.pi) ≠ 0 := by positivity
  have hn0 : (n : ℝ) = -x := by
    apply mul_right_cancel₀ h2pi
    rw [← him]; ring
  have h1 : |(n : ℝ)| < 1 := by
    rw [hn0, abs_neg, abs_of_pos hx]; exact hx1
  have h2 := abs_lt.mp h1
  have h3a : (-1 : ℤ) < n := by exact_mod_cast h2.1
  have h3b : n < 1 := by exact_mod_cast h2.2
  have h4 : n = 0 := by omega
  rw [h4] at hn0
  simp at hn0
  linarith

/-- C2 counterexample: the claim promises the per-G-vector phase factor for
every operation whose translation is not the zero vector, but the code
branches on numpy allclose, so a tiny non-zero translation (here 1e-9,
inside the allclose tolerance 1e-8) takes the copy branch and the
coefficient at a G-vector with non-integer (g + k) . tau does not carry
the claimed phase. -/
theorem C2_phase_cex :
    s_tiny.tau ≠ (0, 0, 0) ∧ w3.nspinor = 1 ∧ (1 : ℕ) < gs1.gvecs.length ∧
    ∃ w', w3.rotate gs1 s_tiny = .ok w' ∧
      (w'.ug.getD 0 []).getD 1 0 ≠
        (w3.ug.getD 0 []).getD 1 0 *
          phaseFactor (gs1.gvecs.getD 1 (0, 0, 0)) gs1.kpoint s_tiny.tau := by
  have hz : allcloseZero s_tiny.tau = true := by
    norm_num [allcloseZero, s_tiny, atol, abs_le]
  refine ⟨by norm_num [s_tiny, Prod.ext_iff], rfl, by decide, _,
    rotate_ok w3 gs1 s_tiny (by decide) rfl rfl, ?_⟩
  have hg : gs1.gvecs.getD 1 (0, 0, 0) = (1, 0, 0) := by decide
  have hq : ((dotQ (addV (gvecToQ (1, 0, 0)) gs1.kpoint) s_tiny.tau : ℚ) : ℝ)
      = ((1 / 1000000000 : ℚ) : ℝ) := by
    norm_num [dotQ, addV, gvecToQ, gs1, s_tiny]
  have hphase :
      phaseFactor (gs1.gvecs.getD 1 (0, 0, 0)) gs1.kpoint s_tiny.tau ≠ 1 := by
    rw [hg, phaseFactor, hq]
    exact exp_small_ne_one _ (by norm_num) (by norm_num)
  simp only [hz, if_true]
  have hcoef : (w3.ug.getD 0 []).getD 1 0 = (1 : ℂ) := by
    norm_num [w3, ug3]
  rw [hcoef, one_mul]
  exact fun h => hphase h.symm

/-- C2 amended: for a single-spinor wavefunction and an operation whose
fractional translation is NOT allclose to zero (some component exceeds the
1e-8 tolerance in absolute value), every coefficient of the rotated
wavefunction equals the original coefficient at the same index multiplied
by the per-G-vector phase factor exp(-2 pi i (g' + k') . tau) built from
the rotated G-vector and rotated k-point. -/
theorem C2_phase_per_gvector (w : PWWaveFunction) (rg : GSphere)
    (s : SymmOp) (hwf : hasShape w.ug w.nspinor w.npw)
    (h1 : w.nspinor = 1) (htau : allcloseZero s.tau = false)
    (hlen : rg.npw = w.npw) (ispin ig : ℕ) (hig : ig < rg.gvecs.length) :
    ∃ w', w.rotate rg s = .ok w' ∧
      (w'.ug.getD ispin []).getD ig 0 =
        (w.ug.getD ispin []).getD ig 0 *
          phaseFactor (rg.gvecs.getD ig (0, 0, 0)) rg.kpoint s.tau := by
  refine ⟨_, rotate_ok w rg s hwf h1 hlen, ?_⟩
  have hfalse : ¬ (allcloseZero s.tau = true) := by rw [htau]; simp
  show ((if allcloseZero s.tau then w.ug
      else w.ug.map (rotRowAux rg.gvecs rg.kpoint s.tau 0)).getD ispin
        []).getD ig 0 = _
  rw [if_neg hfalse, getD_map_pres rfl, rotRowAux_getD]
  simp

/-- Witness for C2 amended at the half-lattice translation, spinor row 0
and G-vector index 1 of the concrete wavefunction. -/
theorem C2_phase_per_gvector_witness :
    hasShape w3.ug w3.nspinor w3.npw ∧ w3.nspinor = 1 ∧
    allcloseZero s_half.tau = false ∧ gs1.npw = w3.npw ∧
    (1 : ℕ) < gs1.gvecs.length ∧
    ∃ w', w3.rotate gs1 s_half = .ok w' ∧
      (w'.ug.getD 0 []).getD 1 0 =
        (w3.ug.getD 0 []).getD 1 0 *
          phaseFactor (gs1.gvecs.getD 1 (0, 0, 0)) gs1.kpoint s_half.tau :=
  ⟨by decide, rfl, by norm_num [allcloseZero, s_half, atol, abs_le], rfl,
   by decide,
   C2_phase_per_gvector w3 gs1 s_half (by decide) rfl
     (by norm_num [allcloseZero, s_half, atol, abs_le]) rfl 0 1 (by decide)⟩
